import Mathlib

/-!
Shallow embedding of the command registry of the UI framework
(`src/ui/commands.ts` / `src/src/ui/index.ts`, class `CommandRegistry`).

The registry is a JavaScript `Map<string, CommandEntry>`; we embed it as an
insertion-ordered association list `List (String × CommandEntry α)` whose
operations (`mapGet`, `mapSet`, `mapDelete`, keys) follow the semantics of the
JavaScript `Map` built-ins: `set` on a present key replaces the value in place
(keeping the key's position), `set` on an absent key appends, `delete` removes
the key, and iteration (keys/entries) is in insertion order.

Handlers are caller-supplied JavaScript functions of a variadic argument list;
they may return a value synchronously, return a promise, throw, or reject.
We embed a handler as `List α → HandlerResult α`, where `HandlerResult`
distinguishes those four outcomes, and `await` (`awaitResult`) collapses the
promise layer exactly as `await command.handler(...args)` does in `execute`.
A thrown JavaScript value is either an `Error` object (of which the registry
reads `.message`) or a non-`Error` value (of which the registry reads only its
`String(v)` conversion); `Thrown` records exactly that observable content.
-/

namespace UICommands

/-- `CommandMetadata` from the source: `{ description?, usage?, examples? }`.
Optional string fields become `Option String`; the optional string array
becomes `Option (List String)`. -/
structure CommandMetadata where
  description : Option String
  usage : Option String
  examples : Option (List String)
deriving DecidableEq, Repr

/-- A thrown/rejected JavaScript value, as observed by `execute`'s catch
block: an `Error` object carrying its `message`, or any other value of which
only the conversion `String(v)` is observed. -/
inductive Thrown where
  | err (message : String)
  | other (stringConv : String)
deriving DecidableEq, Repr

/-- `error instanceof Error ? error.message : String(error)` from the source. -/
def thrownMessage : Thrown → String
  | .err m => m
  | .other s => s

/-- Outcome of calling a handler: a synchronous value, a promise that resolves
to a value, a synchronous throw, or a promise that rejects. -/
inductive HandlerResult (α : Type) where
  | sync (v : α)
  | asyncOk (v : α)
  | thrown (e : Thrown)
  | asyncErr (e : Thrown)

/-- `await` applied to a handler's outcome: unwraps a promise if there is one,
and turns a throw or a rejection into an exceptional result. -/
def awaitResult {α : Type} : HandlerResult α → Except Thrown α
  | .sync v => Except.ok v
  | .asyncOk v => Except.ok v
  | .thrown e => Except.error e
  | .asyncErr e => Except.error e

/-- `CommandHandler`: a variadic function receiving the forwarded arguments. -/
def CommandHandler (α : Type) : Type := List α → HandlerResult α

/-- `CommandEntry` from the source: `{ handler, metadata? }`. -/
structure CommandEntry (α : Type) where
  handler : CommandHandler α
  metadata : Option CommandMetadata

/-- The registry's backing store: an insertion-ordered JavaScript `Map`. -/
def Registry (α : Type) : Type := List (String × CommandEntry α)

/-- `Map.prototype.get`: the value at a key, if present. -/
def mapGet {β : Type} : List (String × β) → String → Option β
  | [], _ => none
  | (k, v) :: rest, key => if k = key then some v else mapGet rest key

/-- `Map.prototype.set`: replace in place when the key is present (keeping its
position), append when absent. -/
def mapSet {β : Type} : List (String × β) → String → β → List (String × β)
  | [], key, val => [(key, val)]
  | (k, v) :: rest, key, val =>
      if k = key then (k, val) :: rest else (k, v) :: mapSet rest key val

/-- `Map.prototype.has`. -/
def mapHas {β : Type} (m : List (String × β)) (key : String) : Bool :=
  (mapGet m key).isSome

/-- `Map.prototype.delete` (the resulting map; the returned boolean is
`mapHas m key`). -/
def mapDelete {β : Type} : List (String × β) → String → List (String × β)
  | [], _ => []
  | (k, v) :: rest, key =>
      if k = key then mapDelete rest key else (k, v) :: mapDelete rest key

/-- `register(name, handler, metadata?)`: `this.commands.set(name, { handler,
metadata })`. The `console.warn` on overwrite is a diagnostic side effect with
no effect on the mapping; registration never fails (the function is total). -/
def register {α : Type} (r : Registry α) (name : String)
    (handler : CommandHandler α) (metadata : Option CommandMetadata) :
    Registry α :=
  mapSet r name ⟨handler, metadata⟩

/-- One value of the `CommandPlugin` record: a bare handler or a
`{ handler, metadata? }` pair. -/
inductive PluginCommand (α : Type) where
  | fn (handler : CommandHandler α)
  | obj (handler : CommandHandler α) (metadata : Option CommandMetadata)

/-- The entry that `plugin` passes to `register` for one plugin command. -/
def pluginEntry {α : Type} : PluginCommand α → CommandEntry α
  | .fn h => ⟨h, none⟩
  | .obj h m => ⟨h, m⟩

/-- `plugin(pluginName, commands)`: for each entry of the record (in its
iteration order), `register` under the composite name
`pluginName ++ ":" ++ commandName`. -/
def plugin {α : Type} (r : Registry α) (pluginName : String)
    (commands : List (String × PluginCommand α)) : Registry α :=
  commands.foldl
    (fun acc p =>
      match p.2 with
      | .fn h => register acc (pluginName ++ ":" ++ p.1) h none
      | .obj h m => register acc (pluginName ++ ":" ++ p.1) h m)
    r

/-- `has(name)`. -/
def has {α : Type} (r : Registry α) (name : String) : Bool :=
  mapHas r name

/-- `getMetadata(name)`: `this.commands.get(name)?.metadata`. -/
def getMetadata {α : Type} (r : Registry α) (name : String) :
    Option CommandMetadata :=
  (mapGet r name).bind (fun e => e.metadata)

/-- `list()`: `Array.from(this.commands.keys())`. -/
def list {α : Type} (r : Registry α) : List String :=
  r.map Prod.fst

/-- `getAll()`: entries mapped to `{ name, metadata }`, in insertion order. -/
def getAll {α : Type} (r : Registry α) : List (String × Option CommandMetadata) :=
  r.map (fun e => (e.1, e.2.metadata))

/-- `unregister(name)`: `this.commands.delete(name)`, returning whether a
removal occurred, paired with the resulting state. -/
def unregister {α : Type} (r : Registry α) (name : String) : Bool × Registry α :=
  (mapHas r name, mapDelete r name)

/-- `clear()`. -/
def clear {α : Type} (_ : Registry α) : Registry α :=
  []

/-- `execute(name, ...args)`: look the command up; if absent, throw the
not-found `Error`; otherwise `await` the handler on the forwarded arguments
and return its result, re-throwing any failure as the wrapping `Error`.
The method never mutates `this.commands`, which the explicit state passing
makes visible: the returned registry is the input one. -/
def execute {α : Type} (r : Registry α) (name : String) (args : List α) :
    Except Thrown α × Registry α :=
  match mapGet r name with
  | none =>
      (Except.error (Thrown.err
        ("Command \"" ++ name ++ "\" not found. Available commands: " ++
          String.intercalate ", " (list r))), r)
  | some command =>
      match awaitResult (command.handler args) with
      | Except.ok result => (Except.ok result, r)
      | Except.error e =>
          (Except.error (Thrown.err
            ("Error executing command \"" ++ name ++ "\": " ++
              thrownMessage e)), r)

/-- One line of the all-commands help text: the name, with a
` - description` suffix when the entry has a description set and non-empty
(`if (metadata?.description)` tests JavaScript truthiness, so the empty
string counts as unset). -/
def helpLine (e : String × Option CommandMetadata) : String :=
  "  " ++ e.1 ++
    (match e.2 with
     | some md =>
         (match md.description with
          | some d => if d = "" then "" else " - " ++ d
          | none => "")
     | none => "") ++ "\n"

/-- The branch of `help()` that renders all commands: `"No commands
registered."` when the registry is empty, otherwise a header followed by one
line per command, accumulated with `help += ...` as in the source. -/
def helpAll {α : Type} (r : Registry α) : String :=
  if (getAll r).length = 0 then
    "No commands registered."
  else
    (getAll r).foldl (fun acc e => acc ++ helpLine e) "Available commands:\n\n"

/-- `help(name?)`. The source tests `if (name)`, a JavaScript truthiness
check, so both a missing argument and the empty string take the all-commands
branch. With a (truthy) name: not-found text when absent; a minimal message
when the entry has no metadata; otherwise the name line, then a description
line if the description is set and non-empty, a usage line if the usage is set
and non-empty, and an `Examples:` block iff the examples list is set and
non-empty (the source tests each field's truthiness). -/
def help {α : Type} (r : Registry α) (name : Option String) : String :=
  match name with
  | some n =>
      if n = "" then helpAll r
      else
        match mapGet r n with
        | none => "Command \"" ++ n ++ "\" not found."
        | some command =>
            match command.metadata with
            | none => "Command: " ++ n ++ "\nNo metadata available."
            | some metadata =>
                let h0 := "Command: " ++ n ++ "\n"
                let h1 :=
                  match metadata.description with
                  | some d =>
                      if d = "" then h0 else h0 ++ "Description: " ++ d ++ "\n"
                  | none => h0
                let h2 :=
                  match metadata.usage with
                  | some u =>
                      if u = "" then h1 else h1 ++ "Usage: " ++ u ++ "\n"
                  | none => h1
                let h3 :=
                  match metadata.examples with
                  | some exs =>
                      if exs.length > 0 then
                        h2 ++ "Examples:\n" ++
                          String.intercalate "\n"
                            (exs.map (fun e => "  " ++ e)) ++ "\n"
                      else h2
                  | none => h2
                h3
  | none => helpAll r

/-- Substring test on strings (decidable, used to state the "message
contains" facts of the specification). -/
def listIsPre : List Char → List Char → Bool
  | [], _ => true
  | _ :: _, [] => false
  | a :: as, b :: bs => a = b && listIsPre as bs

/-- `pat` occurs as a contiguous run inside `l`. -/
def listSub (pat : List Char) : List Char → Bool
  | [] => listIsPre pat []
  | b :: bs => listIsPre pat (b :: bs) || listSub pat bs

/-- `strContains s pat`: `pat` is a substring of `s`. -/
def strContains (s pat : String) : Bool :=
  listSub pat.data s.data

/-- Propositional substring statement used for facts about arbitrary
(non-concrete) strings. -/
def SubstringOf (pat s : String) : Prop :=
  ∃ pre post, s = pre ++ pat ++ post

/-- Rendering following the specification text for the all-commands help:
"a header line followed by one line per registered command (in `list()`
order)". Stated as the plain concatenation of the per-command lines, to be
compared with the source's accumulating fold. -/
def specHelpLines : List (String × Option CommandMetadata) → String
  | [] => ""
  | e :: rest => helpLine e ++ specHelpLines rest

/-- Concrete handler used in witnesses: sums its arguments synchronously. -/
def addHandler : CommandHandler Nat :=
  fun args => HandlerResult.sync (args.foldl (fun a b => a + b) 0)

/-- Concrete handler used in witnesses: asynchronously returns its first
argument. -/
def headHandler : CommandHandler Nat :=
  fun args => HandlerResult.asyncOk (args.headD 0)

/-- Concrete handler used in witnesses: throws an `Error` object. -/
def throwHandler : CommandHandler Nat :=
  fun _ => HandlerResult.thrown (Thrown.err "boom")

/-- Concrete handler used in witnesses: throws a non-`Error` value whose
string conversion is `"oops"`. -/
def throwStringHandler : CommandHandler Nat :=
  fun _ => HandlerResult.thrown (Thrown.other "oops")

/-! ### Lemmas about the `Map` embedding -/

theorem mapGet_mapSet_self {β : Type} (m : List (String × β)) (k : String)
    (v : β) : mapGet (mapSet m k v) k = some v := by
  induction m with
  | nil => simp [mapSet, mapGet]
  | cons head rest ih =>
      obtain ⟨k0, v0⟩ := head
      by_cases h0 : k0 = k
      · simp [mapSet, mapGet, h0]
      · simp [mapSet, mapGet, h0, ih]

theorem mapGet_mapSet_ne {β : Type} (m : List (String × β)) (k k' : String)
    (v : β) (h : k' ≠ k) : mapGet (mapSet m k v) k' = mapGet m k' := by
  induction m with
  | nil => simp [mapSet, mapGet, Ne.symm h]
  | cons head rest ih =>
      obtain ⟨k0, v0⟩ := head
      by_cases h0 : k0 = k
      · subst h0
        simp [mapSet, mapGet, Ne.symm h]
      · simp [mapSet, mapGet, h0, ih]

theorem mapHas_iff_mem {β : Type} (m : List (String × β)) (k : String) :
    mapHas m k = true ↔ k ∈ m.map Prod.fst := by
  induction m with
  | nil => simp [mapHas, mapGet]
  | cons head rest ih =>
      obtain ⟨k0, v0⟩ := head
      by_cases h0 : k0 = k
      · simp [mapHas, mapGet, h0]
      · simp [mapHas, mapGet, h0, Ne.symm h0] at ih ⊢
        exact ih

theorem mapGet_eq_none_of_not_has {β : Type} (m : List (String × β))
    (k : String) (h : mapHas m k = false) : mapGet m k = none := by
  cases hg : mapGet m k with
  | none => rfl
  | some v =>
      exfalso
      rw [mapHas, hg] at h
      simp at h

theorem map_fst_mapSet_present {β : Type} (m : List (String × β)) (k : String)
    (v : β) (h : mapHas m k = true) :
    (mapSet m k v).map Prod.fst = m.map Prod.fst := by
  induction m with
  | nil => simp [mapHas, mapGet] at h
  | cons head rest ih =>
      obtain ⟨k0, v0⟩ := head
      by_cases h0 : k0 = k
      · simp [mapSet, h0]
      · have h' : mapHas rest k = true := by
          simpa [mapHas, mapGet, h0] using h
        simp [mapSet, h0, ih h']

theorem map_fst_mapSet_absent {β : Type} (m : List (String × β)) (k : String)
    (v : β) (h : mapHas m k = false) :
    (mapSet m k v).map Prod.fst = m.map Prod.fst ++ [k] := by
  induction m with
  | nil => simp [mapSet]
  | cons head rest ih =>
      obtain ⟨k0, v0⟩ := head
      by_cases h0 : k0 = k
      · exfalso
        rw [mapHas, mapGet] at h
        simp [h0] at h
      · have h' : mapHas rest k = false := by
          rw [mapHas]
          rw [mapHas, mapGet] at h
          simpa [h0] using h
        simp [mapSet, h0, ih h']

theorem mapGet_mapDelete_self {β : Type} (m : List (String × β)) (k : String) :
    mapGet (mapDelete m k) k = none := by
  induction m with
  | nil => rfl
  | cons head rest ih =>
      obtain ⟨k0, v0⟩ := head
      by_cases h0 : k0 = k
      · simpa [mapDelete, h0] using ih
      · simp [mapDelete, mapGet, h0, ih]

theorem mapGet_mapDelete_ne {β : Type} (m : List (String × β)) (k k' : String)
    (h : k' ≠ k) : mapGet (mapDelete m k) k' = mapGet m k' := by
  induction m with
  | nil => rfl
  | cons head rest ih =>
      obtain ⟨k0, v0⟩ := head
      by_cases h0 : k0 = k
      · subst h0
        simp [mapDelete, mapGet, Ne.symm h, ih]
      · simp [mapDelete, mapGet, h0, ih]

theorem map_fst_mapDelete {β : Type} (m : List (String × β)) (k : String) :
    (mapDelete m k).map Prod.fst =
      (m.map Prod.fst).filter (fun x => x != k) := by
  induction m with
  | nil => rfl
  | cons head rest ih =>
      obtain ⟨k0, v0⟩ := head
      by_cases h0 : k0 = k
      · simp [mapDelete, h0, List.filter_cons, ih]
      · simp [mapDelete, h0, List.filter_cons, bne_iff_ne, ih]

theorem mapDelete_of_not_has {β : Type} (m : List (String × β)) (k : String)
    (h : mapHas m k = false) : mapDelete m k = m := by
  induction m with
  | nil => rfl
  | cons head rest ih =>
      obtain ⟨k0, v0⟩ := head
      by_cases h0 : k0 = k
      · exfalso
        rw [mapHas, mapGet] at h
        simp [h0] at h
      · have h' : mapHas rest k = false := by
          rw [mapHas]
          rw [mapHas, mapGet] at h
          simpa [h0] using h
        simp [mapDelete, h0, ih h']

theorem string_append_left_cancel {s a b : String} (h : s ++ a = s ++ b) :
    a = b := by
  have hd := congrArg String.data h
  rw [String.data_append, String.data_append] at hd
  exact String.ext (List.append_cancel_left hd)

/-! ### Lemmas about the registry operations -/

theorem execute_snd {α : Type} (r : Registry α) (name : String)
    (args : List α) : (execute r name args).2 = r := by
  cases hg : mapGet r name with
  | none => simp [execute, hg]
  | some command =>
      cases hv : awaitResult (command.handler args) with
      | ok v => simp [execute, hg, hv]
      | error e => simp [execute, hg, hv]

theorem execute_of_ok {α : Type} (r : Registry α) (name : String)
    (cmd : CommandEntry α) (args : List α) (v : α)
    (hg : mapGet r name = some cmd)
    (hv : awaitResult (cmd.handler args) = Except.ok v) :
    (execute r name args).1 = Except.ok v := by
  simp [execute, hg, hv]

theorem execute_of_error {α : Type} (r : Registry α) (name : String)
    (cmd : CommandEntry α) (args : List α) (e : Thrown)
    (hg : mapGet r name = some cmd)
    (hv : awaitResult (cmd.handler args) = Except.error e) :
    (execute r name args).1 = Except.error (Thrown.err
      ("Error executing command \"" ++ name ++ "\": " ++ thrownMessage e)) := by
  simp [execute, hg, hv]

theorem execute_of_absent {α : Type} (r : Registry α) (name : String)
    (args : List α) (hg : mapGet r name = none) :
    (execute r name args).1 = Except.error (Thrown.err
      ("Command \"" ++ name ++ "\" not found. Available commands: " ++
        String.intercalate ", " (list r))) := by
  simp [execute, hg]

theorem has_register_self {α : Type} (r : Registry α) (n : String)
    (h : CommandHandler α) (m : Option CommandMetadata) :
    has (register r n h m) n = true := by
  rw [has, mapHas, register, mapGet_mapSet_self]
  rfl

theorem mapGet_register_self {α : Type} (r : Registry α) (n : String)
    (h : CommandHandler α) (m : Option CommandMetadata) :
    mapGet (register r n h m) n = some ⟨h, m⟩ :=
  mapGet_mapSet_self r n ⟨h, m⟩

theorem mapGet_register_ne {α : Type} (r : Registry α) (n n' : String)
    (h : CommandHandler α) (m : Option CommandMetadata) (hne : n' ≠ n) :
    mapGet (register r n h m) n' = mapGet r n' :=
  mapGet_mapSet_ne r n n' ⟨h, m⟩ hne

theorem getMetadata_register_self {α : Type} (r : Registry α) (n : String)
    (h : CommandHandler α) (m : Option CommandMetadata) :
    getMetadata (register r n h m) n = m := by
  rw [getMetadata, mapGet_register_self]
  cases m <;> rfl

theorem list_register_present {α : Type} (r : Registry α) (n : String)
    (h : CommandHandler α) (m : Option CommandMetadata)
    (hp : has r n = true) : list (register r n h m) = list r :=
  map_fst_mapSet_present r n ⟨h, m⟩ hp

theorem list_register_absent {α : Type} (r : Registry α) (n : String)
    (h : CommandHandler α) (m : Option CommandMetadata)
    (hp : has r n = false) : list (register r n h m) = list r ++ [n] :=
  map_fst_mapSet_absent r n ⟨h, m⟩ hp

theorem plugin_cons {α : Type} (r : Registry α) (p n : String)
    (c : PluginCommand α) (rest : List (String × PluginCommand α)) :
    plugin r p ((n, c) :: rest) =
      plugin (mapSet r (p ++ ":" ++ n) (pluginEntry c)) p rest := by
  cases c <;> rfl

theorem mapGet_plugin_notComposite {α : Type} (r : Registry α) (p : String)
    (cmds : List (String × PluginCommand α)) (x : String)
    (hx : ∀ q ∈ cmds, x ≠ p ++ ":" ++ q.1) :
    mapGet (plugin r p cmds) x = mapGet r x := by
  induction cmds generalizing r with
  | nil => rfl
  | cons head rest ih =>
      obtain ⟨n, c⟩ := head
      rw [plugin_cons]
      rw [ih _ (fun q hq => hx q (List.mem_cons_of_mem _ hq))]
      exact mapGet_mapSet_ne _ _ _ _ (hx (n, c) (List.mem_cons_self _ _))

theorem mapGet_plugin_mem {α : Type} (r : Registry α) (p : String)
    (cmds : List (String × PluginCommand α))
    (hnd : (cmds.map Prod.fst).Nodup) (n : String) (c : PluginCommand α)
    (hmem : (n, c) ∈ cmds) :
    mapGet (plugin r p cmds) (p ++ ":" ++ n) = some (pluginEntry c) := by
  induction cmds generalizing r with
  | nil => cases hmem
  | cons head rest ih =>
      obtain ⟨n0, c0⟩ := head
      rw [List.map_cons] at hnd
      have hnd' := List.nodup_cons.mp hnd
      rw [plugin_cons]
      rcases List.mem_cons.mp hmem with heq | hmem'
      · injection heq with h1 h2
        subst h1
        subst h2
        rw [mapGet_plugin_notComposite]
        · exact mapGet_mapSet_self _ _ _
        · intro q hq hcontra
          have hq1 : n = q.1 := string_append_left_cancel hcontra
          have hmm : q.1 ∈ rest.map Prod.fst := List.mem_map_of_mem Prod.fst hq
          rw [← hq1] at hmm
          exact hnd'.1 hmm
      · exact ih _ hnd'.2 hmem'

theorem list_plugin_fresh {α : Type} (r : Registry α) (p : String)
    (cmds : List (String × PluginCommand α))
    (hnd : (cmds.map Prod.fst).Nodup)
    (hfresh : ∀ q ∈ cmds, (p ++ ":" ++ q.1) ∉ list r) :
    list (plugin r p cmds) = list r ++ cmds.map (fun q => p ++ ":" ++ q.1) := by
  induction cmds generalizing r with
  | nil => simp [plugin]
  | cons head rest ih =>
      obtain ⟨n, c⟩ := head
      rw [List.map_cons] at hnd
      have hnd' := List.nodup_cons.mp hnd
      rw [plugin_cons]
      have habs : mapHas r (p ++ ":" ++ n) = false := by
        cases hb : mapHas r (p ++ ":" ++ n) with
        | false => rfl
        | true =>
            exact absurd ((mapHas_iff_mem r _).mp hb)
              (hfresh (n, c) (List.mem_cons_self _ _))
      have hlist : list (mapSet r (p ++ ":" ++ n) (pluginEntry c)) =
          list r ++ [p ++ ":" ++ n] :=
        map_fst_mapSet_absent r _ _ habs
      have hfresh' : ∀ q ∈ rest,
          (p ++ ":" ++ q.1) ∉ list (mapSet r (p ++ ":" ++ n) (pluginEntry c)) := by
        intro q hq
        rw [hlist]
        intro hmem
        rcases List.mem_append.mp hmem with hin | hone
        · exact hfresh q (List.mem_cons_of_mem _ hq) hin
        · have heq2 : p ++ ":" ++ q.1 = p ++ ":" ++ n :=
            List.mem_singleton.mp hone
          have hq1 : q.1 = n := string_append_left_cancel heq2
          have hmm : q.1 ∈ rest.map Prod.fst := List.mem_map_of_mem Prod.fst hq
          rw [hq1] at hmm
          exact hnd'.1 hmm
      rw [ih _ hnd'.2 hfresh', hlist]
      simp

theorem has_iff_mem {α : Type} (r : Registry α) (n : String) :
    has r n = true ↔ n ∈ list r :=
  mapHas_iff_mem r n

theorem nodup_map_fst_mapSet {β : Type} (m : List (String × β)) (k : String)
    (v : β) (hnd : (m.map Prod.fst).Nodup) :
    ((mapSet m k v).map Prod.fst).Nodup := by
  cases hp : mapHas m k with
  | true =>
      rw [map_fst_mapSet_present m k v hp]
      exact hnd
  | false =>
      rw [map_fst_mapSet_absent m k v hp]
      have hn : k ∉ m.map Prod.fst := by
        intro hmem
        have htrue := (mapHas_iff_mem m k).mpr hmem
        rw [hp] at htrue
        exact Bool.noConfusion htrue
      rw [List.nodup_append]
      exact ⟨hnd, List.nodup_singleton k,
        fun a ha hb => hn (List.mem_singleton.mp hb ▸ ha)⟩

theorem nodup_list_plugin {α : Type} (r : Registry α) (p : String)
    (cmds : List (String × PluginCommand α)) (hnd : (list r).Nodup) :
    (list (plugin r p cmds)).Nodup := by
  induction cmds generalizing r with
  | nil => exact hnd
  | cons head rest ih =>
      obtain ⟨n, c⟩ := head
      rw [plugin_cons]
      exact ih _ (nodup_map_fst_mapSet r _ _ hnd)

theorem list_unregister {α : Type} (r : Registry α) (n : String) :
    list (unregister r n).2 = (list r).filter (fun x => x != n) :=
  map_fst_mapDelete r n

theorem getAll_map_fst {α : Type} (r : Registry α) :
    (getAll r).map Prod.fst = list r := by
  simp [getAll, list]

theorem getMetadata_of_mem_getAll {α : Type} (r : Registry α)
    (hnd : (list r).Nodup) :
    ∀ q ∈ getAll r, getMetadata r q.1 = q.2 := by
  induction r with
  | nil =>
      intro q hq
      cases hq
  | cons head rest ih =>
      obtain ⟨k0, e0⟩ := head
      intro q hq
      have hcons : list ((k0, e0) :: rest) = k0 :: list rest := rfl
      rw [hcons] at hnd
      have hnd' := List.nodup_cons.mp hnd
      rcases List.mem_cons.mp hq with heq | hmem
      · subst heq
        simp [getMetadata, mapGet]
      · have hmem' : q ∈ getAll rest := hmem
        have hq1 : q.1 ∈ list rest := by
          have hmm : q.1 ∈ (getAll rest).map Prod.fst :=
            List.mem_map_of_mem Prod.fst hmem'
          rw [getAll_map_fst] at hmm
          exact hmm
        have hne : k0 ≠ q.1 := fun hc => hnd'.1 (hc ▸ hq1)
        have hstep : getMetadata ((k0, e0) :: rest) q.1 =
            getMetadata rest q.1 := by
          simp [getMetadata, mapGet, hne]
        rw [hstep]
        exact ih hnd'.2 q hmem

theorem foldl_helpLine (l : List (String × Option CommandMetadata))
    (init : String) :
    l.foldl (fun acc e => acc ++ helpLine e) init =
      init ++ specHelpLines l := by
  induction l generalizing init with
  | nil => simp [specHelpLines]
  | cons head rest ih =>
      rw [List.foldl_cons, ih, specHelpLines, String.append_assoc]

theorem helpAll_eq_specHelpLines {α : Type} (r : Registry α) (hne : r ≠ []) :
    helpAll r = "Available commands:\n\n" ++ specHelpLines (getAll r) := by
  have hlen : ¬((getAll r).length = 0) := by
    simp [getAll, hne]
  rw [helpAll, if_neg hlen]
  exact foldl_helpLine _ _

theorem nl_append_description (x : String) :
    ("\n" : String) ++ ("Description: " ++ x) = "\nDescription: " ++ x := by
  rw [← String.append_assoc]
  rfl

theorem nl_append_usage (x : String) :
    ("\n" : String) ++ ("Usage: " ++ x) = "\nUsage: " ++ x := by
  rw [← String.append_assoc]
  rfl

theorem nl_append_examples (x : String) :
    ("\n" : String) ++ ("Examples:\n" ++ x) = "\nExamples:\n" ++ x := by
  rw [← String.append_assoc]
  rfl

theorem help_some_of_metadata {α : Type} (r : Registry α) (n : String)
    (cmd : CommandEntry α) (md : CommandMetadata) (hn : n ≠ "")
    (hg : mapGet r n = some cmd) (hm : cmd.metadata = some md) :
    help r (some n) =
      "Command: " ++ n ++ "\n" ++
        (match md.description with
         | some d => if d = "" then "" else "Description: " ++ d ++ "\n"
         | none => "") ++
        (match md.usage with
         | some u => if u = "" then "" else "Usage: " ++ u ++ "\n"
         | none => "") ++
        (match md.examples with
         | some exs =>
             if exs.length > 0 then
               "Examples:\n" ++
                 String.intercalate "\n" (exs.map (fun e => "  " ++ e)) ++ "\n"
             else ""
         | none => "") := by
  obtain ⟨d, u, exs⟩ := md
  rcases d with _ | d0 <;> rcases u with _ | u0 <;> rcases exs with _ | l <;>
    try rcases l with _ | ⟨e0, es⟩
  all_goals try by_cases hd : d0 = ""
  all_goals try by_cases hu : u0 = ""
  all_goals
    simp [*, help, String.append_assoc, nl_append_description,
      nl_append_usage, nl_append_examples]

/-! ### The claims -/

/-- C1: after `register name h m`, `has name` is true, `getMetadata name`
equals `m` (the absent sentinel `none` when the metadata was omitted), and
`execute name args` forwards exactly `args` to the handler `h` and returns
exactly its result, with a promise-wrapped result resolved by `await` and no
coercion of its shape. In the pure embedding the handler's single invocation
on the forwarded argument list is observed through `h args`. -/
theorem claim_C1 :
    ∀ (α : Type) (r : Registry α) (n : String) (h : CommandHandler α)
      (m : Option CommandMetadata),
      has (register r n h m) n = true ∧
      getMetadata (register r n h m) n = m ∧
      ∀ (args : List α) (v : α), awaitResult (h args) = Except.ok v →
        (execute (register r n h m) n args).1 = Except.ok v := by
  intro α r n h m
  refine ⟨has_register_self r n h m, getMetadata_register_self r n h m, ?_⟩
  intro args v hv
  exact execute_of_ok _ n ⟨h, m⟩ args v (mapGet_register_self r n h m) hv

/-- Witness for C1: registering a synchronous adding handler and a
promise-returning handler, then executing them. -/
theorem claim_C1_witness :
    has (register ([] : Registry Nat) "add" addHandler none) "add" = true ∧
    getMetadata (register ([] : Registry Nat) "add" addHandler none) "add" =
      none ∧
    (execute (register ([] : Registry Nat) "add" addHandler none) "add"
      [5, 3]).1 = Except.ok 8 ∧
    (execute (register ([] : Registry Nat) "first" headHandler none) "first"
      [7, 9]).1 = Except.ok 7 := by
  obtain ⟨h1, h2, h3⟩ := claim_C1 Nat [] "add" addHandler none
  exact ⟨h1, h2, h3 [5, 3] 8 rfl,
    (claim_C1 Nat [] "first" headHandler none).2.2 [7, 9] 7 rfl⟩

/-- C2: `execute` on a name with no entry fails with the not-found `Error`
whose message names the requested command and the full current listing (in
the registry's order, comma separated); concretely, `execute "ghost"` on the
empty registry rejects with a message containing both `"ghost"` and the
substring `"not found"`. -/
theorem claim_C2 :
    (∀ (α : Type) (r : Registry α) (n : String) (args : List α),
        has r n = false →
        (execute r n args).1 = Except.error (Thrown.err
          ("Command \"" ++ n ++ "\" not found. Available commands: " ++
            String.intercalate ", " (list r)))) ∧
    (execute ([] : Registry Nat) "ghost" []).1 = Except.error (Thrown.err
      "Command \"ghost\" not found. Available commands: ") ∧
    strContains "Command \"ghost\" not found. Available commands: "
      "ghost" = true ∧
    strContains "Command \"ghost\" not found. Available commands: "
      "not found" = true := by
  refine ⟨?_, rfl, by decide, by decide⟩
  intro α r n args hh
  exact execute_of_absent r n args (mapGet_eq_none_of_not_has r n hh)

/-- Witness for C2: a registry holding `"x"` rejects `execute "ghost"` with
the not-found message listing `x`. -/
theorem claim_C2_witness :
    (execute (register ([] : Registry Nat) "x" addHandler none) "ghost"
      []).1 = Except.error (Thrown.err
      "Command \"ghost\" not found. Available commands: x") :=
  claim_C2.1 Nat (register [] "x" addHandler none) "ghost" [] rfl

/-- C3: when a registered command's handler throws or rejects, `execute`
fails with the `ExecutionError` whose message contains both the command name
and the original failure's message, and the registry state (every entry,
including the failing command's handler and metadata) is unchanged. -/
theorem claim_C3 :
    ∀ (α : Type) (r : Registry α) (n : String) (cmd : CommandEntry α)
      (args : List α) (e : Thrown),
      mapGet r n = some cmd →
      awaitResult (cmd.handler args) = Except.error e →
      (execute r n args).1 = Except.error (Thrown.err
        ("Error executing command \"" ++ n ++ "\": " ++ thrownMessage e)) ∧
      SubstringOf n
        ("Error executing command \"" ++ n ++ "\": " ++ thrownMessage e) ∧
      SubstringOf (thrownMessage e)
        ("Error executing command \"" ++ n ++ "\": " ++ thrownMessage e) ∧
      (execute r n args).2 = r := by
  intro α r n cmd args e hg hv
  refine ⟨execute_of_error r n cmd args e hg hv, ?_, ?_, execute_snd r n args⟩
  · exact ⟨"Error executing command \"", "\": " ++ thrownMessage e,
      String.append_assoc _ _ _⟩
  · refine ⟨"Error executing command \"" ++ n ++ "\": ", "", ?_⟩
    rw [String.append_empty]

/-- Witness for C3: a handler throwing `Error("boom")` makes `execute`
reject with the wrapping message, leaving the one-entry registry intact. -/
theorem claim_C3_witness :
    (execute (register ([] : Registry Nat) "crash" throwHandler none)
      "crash" []).1 = Except.error (Thrown.err
      "Error executing command \"crash\": boom") ∧
    (execute (register ([] : Registry Nat) "crash" throwHandler none)
      "crash" []).2 = register ([] : Registry Nat) "crash" throwHandler none := by
  have h := claim_C3 Nat (register [] "crash" throwHandler none) "crash"
    ⟨throwHandler, none⟩ [] (Thrown.err "boom") rfl rfl
  exact ⟨h.1, h.2.2.2⟩

/-- C4: the mapping holds at most one entry per name — `list` stays
duplicate-free under every operation starting from the empty registry — and
`register` is a total function that never fails: on a present name it
replaces that entry's handler and metadata in place (so only the new handler
is found by subsequent `execute` lookups), on an absent name it inserts, and
every other entry is untouched. -/
theorem claim_C4 :
    (∀ (α : Type) (r : Registry α) (n : String) (h : CommandHandler α)
        (m : Option CommandMetadata),
        mapGet (register r n h m) n = some ⟨h, m⟩) ∧
    (∀ (α : Type) (r : Registry α) (n n' : String) (h : CommandHandler α)
        (m : Option CommandMetadata), n' ≠ n →
        mapGet (register r n h m) n' = mapGet r n') ∧
    (∀ (α : Type) (r : Registry α) (n : String) (h : CommandHandler α)
        (m : Option CommandMetadata), (list r).Nodup →
        (list (register r n h m)).Nodup) ∧
    (∀ (α : Type) (r : Registry α) (p : String)
        (cmds : List (String × PluginCommand α)), (list r).Nodup →
        (list (plugin r p cmds)).Nodup) ∧
    (∀ (α : Type) (r : Registry α) (n : String), (list r).Nodup →
        (list (unregister r n).2).Nodup) ∧
    (∀ (α : Type) (r : Registry α), (list (clear r)).Nodup) := by
  refine ⟨?_, ?_, ?_, ?_, ?_, ?_⟩
  · intro α r n h m
    exact mapGet_register_self r n h m
  · intro α r n n' h m hne
    exact mapGet_register_ne r n n' h m hne
  · intro α r n h m hnd
    exact nodup_map_fst_mapSet r n ⟨h, m⟩ hnd
  · intro α r p cmds hnd
    exact nodup_list_plugin r p cmds hnd
  · intro α r n hnd
    rw [list_unregister]
    exact hnd.filter _
  · intro α r
    exact List.nodup_nil

/-- Witness for C4: overwriting `"a"` replaces its entry in place, `"b"` is
untouched, and the key listing stays duplicate-free. -/
theorem claim_C4_witness :
    mapGet (register (register ([] : Registry Nat) "a" addHandler none) "a"
        headHandler (some ⟨some "new", none, none⟩)) "a" =
      some ⟨headHandler, some ⟨some "new", none, none⟩⟩ ∧
    mapGet (register (register ([] : Registry Nat) "a" addHandler none) "b"
        headHandler none) "a" = some ⟨addHandler, none⟩ ∧
    (list (register ([] : Registry Nat) "a" addHandler none)).Nodup ∧
    (list (unregister (register ([] : Registry Nat) "a" addHandler none)
        "a").2).Nodup := by
  refine ⟨claim_C4.1 Nat _ "a" headHandler _, ?_, ?_, ?_⟩
  · rw [claim_C4.2.1 Nat (register [] "a" addHandler none) "b" "a"
      headHandler none (by decide)]
    rfl
  · exact claim_C4.2.2.1 Nat [] "a" addHandler none List.nodup_nil
  · exact claim_C4.2.2.2.2.1 Nat (register [] "a" addHandler none) "a"
      (claim_C4.2.2.1 Nat [] "a" addHandler none List.nodup_nil)

/-- C5: `plugin pluginName commands` registers each entry individually under
the composite name `pluginName ++ ":" ++ shortName` — with the entry's
handler, and its metadata when the entry is a handler/metadata pair — in the
input mapping's iteration order (short names are unique within one record,
hence the `Nodup` hypothesis); every name that is not one of the composite
names, in particular a bare short name, keeps its previous registration
status, and concretely `plugin "math" [("add", h)]` on an empty registry
makes `has "math:add"` true and `has "add"` false. -/
theorem claim_C5 :
    (∀ (α : Type) (r : Registry α) (p : String)
        (cmds : List (String × PluginCommand α)),
        (cmds.map Prod.fst).Nodup →
        ∀ (n : String) (c : PluginCommand α), (n, c) ∈ cmds →
          mapGet (plugin r p cmds) (p ++ ":" ++ n) = some (pluginEntry c)) ∧
    (∀ (α : Type) (r : Registry α) (p : String)
        (cmds : List (String × PluginCommand α)) (x : String),
        (∀ q ∈ cmds, x ≠ p ++ ":" ++ q.1) →
        has (plugin r p cmds) x = has r x) ∧
    (∀ (α : Type) (p : String) (cmds : List (String × PluginCommand α)),
        (cmds.map Prod.fst).Nodup →
        list (plugin ([] : Registry α) p cmds) =
          cmds.map (fun q => p ++ ":" ++ q.1)) ∧
    (has (plugin ([] : Registry Nat) "math"
        [("add", PluginCommand.fn addHandler)]) "math:add" = true ∧
     has (plugin ([] : Registry Nat) "math"
        [("add", PluginCommand.fn addHandler)]) "add" = false) := by
  refine ⟨?_, ?_, ?_, rfl, rfl⟩
  · intro α r p cmds hnd n c hmem
    exact mapGet_plugin_mem r p cmds hnd n c hmem
  · intro α r p cmds x hx
    unfold has mapHas
    rw [mapGet_plugin_notComposite r p cmds x hx]
  · intro α p cmds hnd
    have h := list_plugin_fresh ([] : Registry α) p cmds hnd
      (fun q _ => List.not_mem_nil _)
    simpa using h

/-- Witness for C5: installing a two-command plugin registers both composite
names in order, with the pair entry's metadata, and does not register the
short names. -/
theorem claim_C5_witness :
    mapGet (plugin ([] : Registry Nat) "calc"
        [("add", PluginCommand.fn addHandler),
         ("first", PluginCommand.obj headHandler
            (some ⟨some "first arg", none, none⟩))]) "calc:first" =
      some ⟨headHandler, some ⟨some "first arg", none, none⟩⟩ ∧
    list (plugin ([] : Registry Nat) "calc"
        [("add", PluginCommand.fn addHandler),
         ("first", PluginCommand.obj headHandler
            (some ⟨some "first arg", none, none⟩))]) =
      ["calc:add", "calc:first"] ∧
    has (plugin ([] : Registry Nat) "calc"
        [("add", PluginCommand.fn addHandler),
         ("first", PluginCommand.obj headHandler
            (some ⟨some "first arg", none, none⟩))]) "add" = false := by
  refine ⟨?_, ?_, ?_⟩
  · exact claim_C5.1 Nat [] "calc" _ (by decide) "first"
      (PluginCommand.obj headHandler (some ⟨some "first arg", none, none⟩))
      (List.mem_cons_of_mem _ (List.mem_cons_self _ _))
  · rw [claim_C5.2.2.1 Nat "calc"
      [("add", PluginCommand.fn addHandler),
       ("first", PluginCommand.obj headHandler
          (some ⟨some "first arg", none, none⟩))] (by decide)]
    rfl
  · rw [claim_C5.2.1 Nat [] "calc"
      [("add", PluginCommand.fn addHandler),
       ("first", PluginCommand.obj headHandler
          (some ⟨some "first arg", none, none⟩))] "add" (by decide)]
    rfl

/-- C6: `list` returns all currently registered names in original
registration order — re-registering an existing name keeps its original
position and overwrites in place, a fresh name is appended, `unregister`
removes exactly the named entry from the sequence, `clear` empties it — and
`getAll` returns the same names in the same order, each paired with that
entry's current metadata. -/
theorem claim_C6 :
    (∀ (α : Type) (r : Registry α) (n : String) (h : CommandHandler α)
        (m : Option CommandMetadata), has r n = true →
        list (register r n h m) = list r) ∧
    (∀ (α : Type) (r : Registry α) (n : String) (h : CommandHandler α)
        (m : Option CommandMetadata), has r n = false →
        list (register r n h m) = list r ++ [n]) ∧
    (∀ (α : Type) (r : Registry α) (n : String),
        list (unregister r n).2 = (list r).filter (fun x => x != n)) ∧
    (∀ (α : Type) (r : Registry α), list (clear r) = []) ∧
    (∀ (α : Type) (r : Registry α), (getAll r).map Prod.fst = list r) ∧
    (∀ (α : Type) (r : Registry α), (list r).Nodup →
        ∀ q ∈ getAll r, getMetadata r q.1 = q.2) := by
  refine ⟨?_, ?_, ?_, ?_, ?_, ?_⟩
  · intro α r n h m hp
    exact list_register_present r n h m hp
  · intro α r n h m hp
    exact list_register_absent r n h m hp
  · intro α r n
    exact list_unregister r n
  · intro α r
    rfl
  · intro α r
    exact getAll_map_fst r
  · intro α r hnd
    exact getMetadata_of_mem_getAll r hnd

/-- Witness for C6: overwriting `"a"` in a two-command registry keeps the
listing `["a", "b"]`, a fresh `"c"` is appended, and `getAll` pairs each name
with its current metadata. -/
theorem claim_C6_witness :
    list (register (register (register ([] : Registry Nat) "a" addHandler
        none) "b" headHandler none) "a" headHandler
        (some ⟨some "changed", none, none⟩)) = ["a", "b"] ∧
    list (register (register (register ([] : Registry Nat) "a" addHandler
        none) "b" headHandler none) "c" headHandler none) = ["a", "b", "c"] ∧
    getMetadata (register (register ([] : Registry Nat) "a" addHandler none)
        "b" headHandler (some ⟨some "bee", none, none⟩)) "b" =
      some ⟨some "bee", none, none⟩ := by
  refine ⟨?_, ?_, ?_⟩
  · rw [claim_C6.1 Nat (register (register [] "a" addHandler none) "b"
      headHandler none) "a" headHandler (some ⟨some "changed", none, none⟩)
      rfl]
    rfl
  · rw [claim_C6.2.1 Nat (register (register [] "a" addHandler none) "b"
      headHandler none) "c" headHandler none rfl]
    rfl
  · have h := claim_C6.2.2.2.2.2 Nat (register (register [] "a" addHandler
      none) "b" headHandler (some ⟨some "bee", none, none⟩)) (by decide)
      ("b", some ⟨some "bee", none, none⟩)
    exact h (List.mem_cons_of_mem _ (List.mem_cons_self _ _))

/-- C7 counterexample: the source's JavaScript truthiness checks refute the
claim as stated. (1) `help ""` on a registry where `""` is absent takes the
`if (name)` else-branch and returns the full listing, which contains no
"not found" text. (2) A present command whose metadata has `description`
set to the empty string renders no description line (`if
(metadata.description)` is falsy), and (3) likewise for `usage`; (4) in the
all-commands listing an empty-string description produces no ` - `
suffix. -/
theorem claim_C7_counterexample :
    (has (register ([] : Registry Nat) "x" addHandler none) "" = false ∧
     help (register ([] : Registry Nat) "x" addHandler none) (some "") =
       "Available commands:\n\n  x\n" ∧
     strContains "Available commands:\n\n  x\n" "not found" = false) ∧
    (help (register ([] : Registry Nat) "y" addHandler
        (some ⟨some "", none, none⟩)) (some "y") = "Command: y\n" ∧
     strContains "Command: y\n" "Description" = false) ∧
    (help (register ([] : Registry Nat) "z" addHandler
        (some ⟨none, some "", none⟩)) (some "z") = "Command: z\n" ∧
     strContains "Command: z\n" "Usage" = false) ∧
    help (register ([] : Registry Nat) "y" addHandler
        (some ⟨some "", none, none⟩)) none = "Available commands:\n\n  y\n" := by
  exact ⟨⟨rfl, rfl, by decide⟩, ⟨rfl, by decide⟩, ⟨rfl, by decide⟩, rfl⟩

/-- C7 (amended): `help` never fails for any argument. For every *non-empty*
name (the empty string is treated like the missing argument, taking the
all-commands branch): when the name is absent from the registry the result
is the "not found" text referencing it; when present without metadata, the
minimal "no metadata available" message naming the command; when present
with metadata, a command name line, a description line if the description is
set *and non-empty*, a usage line if the usage is set *and non-empty*, and
an `Examples:` block with each example on its own indented line only if the
examples sequence is non-empty. `help` with no argument returns the fixed
"no commands registered" message on an empty registry, and otherwise a
header line followed by one line per command in `list()` order with an
inline ` - description` suffix when a non-empty description is present
(`specHelpLines`/`helpLine` spell out those lines). -/
theorem claim_C7_amended :
    (∀ (α : Type) (r : Registry α) (n : String), n ≠ "" → has r n = false →
        help r (some n) = "Command \"" ++ n ++ "\" not found.") ∧
    (∀ (α : Type) (r : Registry α) (n : String) (cmd : CommandEntry α),
        n ≠ "" → mapGet r n = some cmd → cmd.metadata = none →
        help r (some n) = "Command: " ++ n ++ "\nNo metadata available.") ∧
    (∀ (α : Type) (r : Registry α) (n : String) (cmd : CommandEntry α)
        (md : CommandMetadata), n ≠ "" → mapGet r n = some cmd →
        cmd.metadata = some md →
        help r (some n) =
          "Command: " ++ n ++ "\n" ++
            (match md.description with
             | some d => if d = "" then "" else "Description: " ++ d ++ "\n"
             | none => "") ++
            (match md.usage with
             | some u => if u = "" then "" else "Usage: " ++ u ++ "\n"
             | none => "") ++
            (match md.examples with
             | some exs =>
                 if exs.length > 0 then
                   "Examples:\n" ++
                     String.intercalate "\n"
                       (exs.map (fun e => "  " ++ e)) ++ "\n"
                 else ""
             | none => "")) ∧
    (∀ (α : Type), help ([] : Registry α) none = "No commands registered.") ∧
    (∀ (α : Type) (r : Registry α), r ≠ [] →
        help r none = "Available commands:\n\n" ++ specHelpLines (getAll r)) := by
  refine ⟨?_, ?_, ?_, ?_, ?_⟩
  · intro α r n hn hh
    simp [help, hn, mapGet_eq_none_of_not_has r n hh]
  · intro α r n cmd hn hg hm
    simp [help, hn, hg, hm]
  · intro α r n cmd md hn hg hm
    exact help_some_of_metadata r n cmd md hn hg hm
  · intro α
    rfl
  · intro α r hne
    exact helpAll_eq_specHelpLines r hne

/-- Witness for C7 (amended): the spec's concrete scenario (`"calculate"`
with full metadata), a missing name, a metadata-less name, and the
all-commands listing. -/
theorem claim_C7_witness :
    help (register ([] : Registry Nat) "calculate" addHandler
        (some ⟨some "Add two numbers", some "calculate <a> <b>",
          some ["calculate 5 3"]⟩)) (some "calculate") =
      "Command: calculate\nDescription: Add two numbers\nUsage: calculate <a> <b>\nExamples:\n  calculate 5 3\n" ∧
    help ([] : Registry Nat) (some "ghost") = "Command \"ghost\" not found." ∧
    help (register ([] : Registry Nat) "m" addHandler none) (some "m") =
      "Command: m\nNo metadata available." ∧
    help (register ([] : Registry Nat) "m" addHandler
        (some ⟨some "em", none, none⟩)) none =
      "Available commands:\n\n  m - em\n" := by
  refine ⟨?_, ?_, ?_, ?_⟩
  · rw [claim_C7_amended.2.2.1 Nat
      (register [] "calculate" addHandler
        (some ⟨some "Add two numbers", some "calculate <a> <b>",
          some ["calculate 5 3"]⟩)) "calculate"
      ⟨addHandler, some ⟨some "Add two numbers", some "calculate <a> <b>",
        some ["calculate 5 3"]⟩⟩
      ⟨some "Add two numbers", some "calculate <a> <b>",
        some ["calculate 5 3"]⟩ (by decide) rfl rfl]
    rfl
  · exact claim_C7_amended.1 Nat [] "ghost" (by decide) rfl
  · exact claim_C7_amended.2.1 Nat (register [] "m" addHandler none) "m"
      ⟨addHandler, none⟩ (by decide) rfl rfl
  · rw [claim_C7_amended.2.2.2.2 Nat
      (register [] "m" addHandler (some ⟨some "em", none, none⟩))
      (List.cons_ne_nil _ _)]
    rfl

/-- C8: `getMetadata` returns the metadata recorded at the most recent
`register` for the name; it returns the absent sentinel `none` both when the
command was registered without metadata and when the command is not
registered at all, so the two cases are indistinguishable through
`getMetadata`. The operation is a pure function of the registry value, so it
has no side effects on the registry. -/
theorem claim_C8 :
    (∀ (α : Type) (r : Registry α) (n : String) (h : CommandHandler α)
        (m : Option CommandMetadata),
        getMetadata (register r n h m) n = m) ∧
    (∀ (α : Type) (r : Registry α) (n : String) (h : CommandHandler α),
        getMetadata (register r n h none) n = none) ∧
    (∀ (α : Type) (r : Registry α) (n : String), has r n = false →
        getMetadata r n = none) := by
  refine ⟨?_, ?_, ?_⟩
  · intro α r n h m
    exact getMetadata_register_self r n h m
  · intro α r n h
    exact getMetadata_register_self r n h none
  · intro α r n hh
    simp [getMetadata, mapGet_eq_none_of_not_has r n hh]

/-- Witness for C8: a re-registration's metadata wins, and an unregistered
name yields the same sentinel as a metadata-less registration. -/
theorem claim_C8_witness :
    getMetadata (register (register ([] : Registry Nat) "a" addHandler
        (some ⟨some "old", none, none⟩)) "a" addHandler
        (some ⟨some "new", none, none⟩)) "a" = some ⟨some "new", none, none⟩ ∧
    getMetadata (register ([] : Registry Nat) "bare" addHandler none)
      "bare" = none ∧
    getMetadata ([] : Registry Nat) "nope" = none :=
  ⟨claim_C8.1 Nat (register [] "a" addHandler (some ⟨some "old", none, none⟩))
      "a" addHandler (some ⟨some "new", none, none⟩),
   claim_C8.2.1 Nat [] "bare" addHandler,
   claim_C8.2.2 Nat [] "nope" rfl⟩

/-- C9: `unregister` on a present name reports a removal and removes exactly
that entry (afterwards `has` is false, every other name's entry is
untouched); on an absent name it returns false and leaves the registry
entirely unchanged. It is a total function: it never fails. -/
theorem claim_C9 :
    (∀ (α : Type) (r : Registry α) (n : String), has r n = true →
        (unregister r n).1 = true) ∧
    (∀ (α : Type) (r : Registry α) (n : String),
        has (unregister r n).2 n = false) ∧
    (∀ (α : Type) (r : Registry α) (n n' : String), n' ≠ n →
        mapGet (unregister r n).2 n' = mapGet r n') ∧
    (∀ (α : Type) (r : Registry α) (n : String), has r n = false →
        unregister r n = (false, r)) := by
  refine ⟨?_, ?_, ?_, ?_⟩
  · intro α r n hh
    exact hh
  · intro α r n
    simp [has, mapHas, unregister, mapGet_mapDelete_self]
  · intro α r n n' hne
    exact mapGet_mapDelete_ne r n n' hne
  · intro α r n hh
    have h1 : mapHas r n = false := hh
    unfold unregister
    rw [h1, mapDelete_of_not_has r n h1]

/-- Witness for C9: removing the present `"a"` returns true and afterwards
`has "a"` is false with `"b"` untouched; removing the absent `"ghost"`
returns false and changes nothing. -/
theorem claim_C9_witness :
    (unregister (register ([] : Registry Nat) "a" addHandler none) "a").1 =
      true ∧
    has (unregister (register ([] : Registry Nat) "a" addHandler none)
        "a").2 "a" = false ∧
    mapGet (unregister (register (register ([] : Registry Nat) "a"
        addHandler none) "b" headHandler none) "a").2 "b" =
      some ⟨headHandler, none⟩ ∧
    unregister ([] : Registry Nat) "ghost" = (false, ([] : Registry Nat)) := by
  refine ⟨claim_C9.1 Nat (register [] "a" addHandler none) "a" rfl,
    claim_C9.2.1 Nat (register [] "a" addHandler none) "a", ?_,
    claim_C9.2.2.2 Nat [] "ghost" rfl⟩
  rw [claim_C9.2.2.1 Nat (register (register [] "a" addHandler none) "b"
    headHandler none) "a" "b" (by decide)]
  rfl

/-- C10: a handler that throws a non-`Error` value `v` still makes `execute`
reject with an `Error` object (`Thrown.err`) whose message contains the
command name and the conversion `String(v)`; the original non-`Error` value
(`Thrown.other`) is never what `execute` propagates. -/
theorem claim_C10 :
    ∀ (α : Type) (r : Registry α) (n : String) (cmd : CommandEntry α)
      (args : List α) (s : String),
      mapGet r n = some cmd →
      awaitResult (cmd.handler args) = Except.error (Thrown.other s) →
      (execute r n args).1 = Except.error (Thrown.err
        ("Error executing command \"" ++ n ++ "\": " ++ s)) ∧
      ∀ v : String, (execute r n args).1 ≠ Except.error (Thrown.other v) := by
  intro α r n cmd args s hg hv
  have h1 := execute_of_error r n cmd args (Thrown.other s) hg hv
  refine ⟨h1, ?_⟩
  intro v hc
  rw [h1] at hc
  simp at hc

/-- Witness for C10: a handler throwing the string `"oops"` produces the
wrapping `Error`, not the string itself. -/
theorem claim_C10_witness :
    (execute (register ([] : Registry Nat) "bad" throwStringHandler none)
      "bad" []).1 = Except.error (Thrown.err
      "Error executing command \"bad\": oops") :=
  (claim_C10 Nat (register [] "bad" throwStringHandler none) "bad"
    ⟨throwStringHandler, none⟩ [] "oops" rfl rfl).1

end UICommands
